import Mathlib

/-!
# Verification of the load-balancer request-routing core

Shallow embedding, in Lean 4, of the `loadbalancer` Go package
(load balancer, circuit breaker, consistent hash ring, health checker,
selection algorithms), together with proofs and refutations of the
specification's claims about it.

Modelling conventions:
* Go `int`/`int64` counters and durations are modelled as `Int`
  (no overflow is relevant to any claim); monotonic instants
  (`time.Time`, read through `time.Now()`/`time.Since`) are modelled by an
  explicit `now : Int` parameter threaded to each operation that reads the
  clock, with `time.Since(t) = now - t`.
* Mutation of struct fields behind a pointer is modelled by explicit state
  passing: each Go method `(x *T) M(...)` becomes a Lean function
  `T → ... → T`.
* `rand.Intn(n)` is modelled by threading a `rand : Nat` seed and taking
  `rand % n`, a faithful parametrisation of the random source.
-/

namespace LoadBalancer

/-- The three circuit states `closed`/`open`/`half_open` of the Go
`CircuitState` string type.  (`opened` stands for the Go constant
`CircuitStateOpen`; `open` is a Lean keyword.) -/
inductive CircuitState where
  | closed
  | opened
  | halfOpen
deriving DecidableEq, Repr

/-- `CircuitBreakerConfig` from the source. -/
structure CircuitBreakerConfig where
  enabled : Bool
  failureThreshold : Int
  successThreshold : Int
  timeout : Int
  halfOpenRequests : Int
deriving DecidableEq, Repr

/-- `CircuitBreaker` from the source: config, state, the two counters and
the last-failure timestamp (`time.Time`, modelled as an `Int` instant;
the Go zero time is modelled as `0`). -/
structure CircuitBreaker where
  config : CircuitBreakerConfig
  state : CircuitState
  failureCount : Int
  successCount : Int
  lastFailure : Int
deriving DecidableEq, Repr

/-- `NewCircuitBreaker`: starts `Closed`, with Go zero values for the
counters and the last-failure time. -/
def NewCircuitBreaker (config : CircuitBreakerConfig) : CircuitBreaker :=
  { config := config, state := .closed, failureCount := 0, successCount := 0,
    lastFailure := 0 }

/-- `CircuitBreaker.CanRequest`, read at instant `now`:
Closed → true; Open → `time.Since(lastFailure) > timeout`;
HalfOpen → `successCount < halfOpenRequests`. -/
def canRequest (cb : CircuitBreaker) (now : Int) : Bool :=
  match cb.state with
  | .closed => true
  | .opened => now - cb.lastFailure > cb.config.timeout
  | .halfOpen => cb.successCount < cb.config.halfOpenRequests

/-- `CircuitBreaker.RecordSuccess`: increments the success counter; in
HalfOpen, once it reaches the success threshold, moves to Closed and zeroes
both counters; in Closed, zeroes the failure counter.  (The `Open` case of
the Go `switch` is absent: an Open breaker only gets its counter bumped.) -/
def recordSuccess (cb : CircuitBreaker) : CircuitBreaker :=
  let cb := { cb with successCount := cb.successCount + 1 }
  match cb.state with
  | .halfOpen =>
      if cb.successCount ≥ cb.config.successThreshold then
        { cb with state := .closed, failureCount := 0, successCount := 0 }
      else cb
  | .closed => { cb with failureCount := 0 }
  | .opened => cb

/-- `CircuitBreaker.RecordFailure` at instant `now`: increments the failure
counter and stamps `lastFailure`; in Closed, once the failure counter
reaches the failure threshold, moves to Open and zeroes the success counter
(the failure counter is left at its incremented value); in HalfOpen, moves
to Open and zeroes the success counter. -/
def recordFailure (cb : CircuitBreaker) (now : Int) : CircuitBreaker :=
  let cb := { cb with failureCount := cb.failureCount + 1, lastFailure := now }
  match cb.state with
  | .closed =>
      if cb.failureCount ≥ cb.config.failureThreshold then
        { cb with state := .opened, successCount := 0 }
      else cb
  | .halfOpen => { cb with state := .opened, successCount := 0 }
  | .opened => cb

/-- A run of consecutive `RecordFailure` calls, at the given instants. -/
def recordFailures (cb : CircuitBreaker) (ts : List Int) : CircuitBreaker :=
  ts.foldl recordFailure cb

/-- The external operations on a circuit breaker (`CanRequest` holds only a
read lock and mutates nothing). -/
inductive CBOp where
  | canReq (now : Int)
  | recSuccess
  | recFailure (now : Int)
deriving DecidableEq, Repr

/-- Effect of one external call on the breaker state. -/
def applyOp (cb : CircuitBreaker) : CBOp → CircuitBreaker
  | .canReq _ => cb
  | .recSuccess => recordSuccess cb
  | .recFailure now => recordFailure cb now

/-- Effect of a sequence of external calls. -/
def applyOps (cb : CircuitBreaker) (ops : List CBOp) : CircuitBreaker :=
  ops.foldl applyOp cb

/-- `Backend` from the source.  The fields that are opaque handles into
`net/http` (`URL`, `Proxy`) and the free-form `Metadata` map are not part of
any modelled computation and are omitted; the stable `ID` string stands for
the backend's identity (pointer identity in Go — `generateBackendID`
produces collision-resistant ids). -/
structure Backend where
  id : String
  weight : Int
  healthy : Bool
  lastCheck : Int
  connections : Int
  responseTime : Int
  errorCount : Int
  successCount : Int
  circuitBreaker : Option CircuitBreaker
deriving DecidableEq, Repr

/-- `LoadBalancer.checkBackendHealth`, for one backend, at instant `now`.
`probeOK` is the outcome of the HTTP probe:
`err == nil && resp.StatusCode == http.StatusOK`. -/
def checkBackendHealth (b : Backend) (now : Int) (probeOK : Bool) : Backend :=
  let b := { b with lastCheck := now }
  if probeOK then
    { b with healthy := true, successCount := b.successCount + 1,
             circuitBreaker := b.circuitBreaker.map recordSuccess }
  else
    { b with healthy := false, errorCount := b.errorCount + 1,
             circuitBreaker := b.circuitBreaker.map (recordFailure · now) }

/-- A run of health probes against one backend: each entry is the probe's
instant and outcome. -/
def runProbes (b : Backend) (probes : List (Int × Bool)) : Backend :=
  probes.foldl (fun b p => checkBackendHealth b p.1 p.2) b

/-! ## Selection algorithms (§ "Selection Engine")

Each algorithm is a pure function of the eligible backend list (and, where
the source consults them, the request-counter, the client IP bytes or the
random draw).  A `none` result models the Go functions returning a `nil`
backend pointer. -/

/-- `roundRobin`: `index := int(totalRequests) % len(backends)`. -/
def roundRobin (totalRequests : Nat) (backends : List Backend) :
    Option Backend :=
  if backends.isEmpty then none
  else backends.get? (totalRequests % backends.length)

/-- The accumulation loop of `weightedRoundRobin`: walk the list summing
weights until the draw falls inside a backend's weight band. -/
def wrrWalk (backends : List Backend) (draw current : Int) : Option Backend :=
  match backends with
  | [] => none
  | b :: rest =>
      if draw < current + b.weight then some b
      else wrrWalk rest draw (current + b.weight)

/-- Sum of the weights of a backend list (`totalWeight`). -/
def totalWeight (backends : List Backend) : Int :=
  (backends.map (·.weight)).sum

/-- `weightedRoundRobin`: if the total weight is `0`, returns
`backends[0]`; otherwise draws `rand.Intn(totalWeight)` and walks the
weight bands, falling back to `backends[0]`. -/
def weightedRoundRobin (backends : List Backend) (rand : Nat) :
    Option Backend :=
  if backends.isEmpty then none
  else
    let tw := totalWeight backends
    if tw = 0 then backends.head?
    else
      match wrrWalk backends ((rand % tw.toNat : Nat) : Int) 0 with
      | some b => some b
      | none => backends.head?

/-- `leastConnections`: smallest live connection count, ties to the first
encountered. -/
def leastConnections (backends : List Backend) : Option Backend :=
  match backends with
  | [] => none
  | b0 :: rest =>
      some (rest.foldl
        (fun sel b => if b.connections < sel.connections then b else sel) b0)

/-- Fuel-driven binary logarithm, structurally recursive so that the
kernel can evaluate it; `log2Aux n n = ⌊log₂ n⌋` for `n ≥ 1`. -/
def log2Aux : Nat → Nat → Nat
  | 0, _ => 0
  | fuel + 1, n => if n ≥ 2 then log2Aux fuel (n / 2) + 1 else 0

/-- `⌊log₂ n⌋` (0 for `n = 0`). -/
def natLog2 (n : Nat) : Nat := log2Aux n n

/-- Rounds a natural number to 53 significant bits, to nearest with ties
to even: the exact value of the Go conversion `float64(n)` for an int64
magnitude (numbers below `2^53` are exact). -/
def rnd53 (n : Nat) : Nat :=
  if n < 2 ^ 53 then n
  else
    let sh := natLog2 n - 52
    let q := n / 2 ^ sh
    let r := n % 2 ^ sh
    let m := if 2 * r < 2 ^ sh then q
             else if 2 * r > 2 ^ sh then q + 1
             else if q % 2 = 0 then q else q + 1
    m * 2 ^ sh

/-- Decides `2 ^ e ≤ a / b` for positive naturals and an integer `e`. -/
def le2exp (a b : Nat) (e : Int) : Bool :=
  if 0 ≤ e then b * 2 ^ e.toNat ≤ a else b ≤ a * 2 ^ (-e).toNat

/-- `⌊log₂ (a / b)⌋` for positive naturals: the true exponent is
`natLog2 a - natLog2 b` or one less. -/
def floorLog2Frac (a b : Nat) : Int :=
  let k : Int := (natLog2 a : Int) - (natLog2 b : Int)
  if le2exp a b k then k else k - 1

/-- IEEE round-to-nearest (ties to even) of `a / b` (positive naturals) to
a 53-bit significand: the resulting double as a dyadic pair `(m, e)` of
value `m·2^e`. -/
def roundQuotient (a b : Nat) : Int × Int :=
  let e := floorLog2Frac a b
  let num := if 0 ≤ 52 - e then a * 2 ^ (52 - e).toNat else a
  let den := if 0 ≤ 52 - e then b else b * 2 ^ (e - 52).toNat
  let q := num / den
  let r := num % den
  let m := if 2 * r < den then q
           else if 2 * r > den then q + 1
           else if q % 2 = 0 then q else q + 1
  ((m : Int), e - 52)

/-- The exact value of the Go expression
`float64(conns) / float64(weight)` for `weight ≠ 0`, as a dyadic pair
`(m, e)` of value `m·2^e`: both int64 operands are converted to doubles
(53-bit rounding of the magnitude, sign restored) and their quotient is
rounded to nearest, ties to even.  For int64 operands the quotient lies
far inside the normal double range, so no overflow, underflow or
subnormal arises. -/
def goFloatDiv (conns weight : Int) : Int × Int :=
  let a := rnd53 conns.natAbs
  let b := rnd53 weight.natAbs
  if a = 0 then (0, 0)
  else
    let p := roundQuotient a b
    (if (conns < 0) = (weight < 0) then p.1 else -p.1, p.2)

/-- The value of the Go expression
`float64(connections) / float64(weight)`: a NaN (`0/0`), a signed infinity
(`c/0`, `c ≠ 0`) or a finite double, kept as a dyadic pair of value
`m·2^e`. -/
inductive Ratio where
  | nan
  | negInf
  | inf
  | fin (m e : Int)
deriving DecidableEq, Repr

/-- Division `float64(conns) / float64(weight)` with IEEE special cases;
a finite result is the exactly-rounded double quotient. -/
def mkRatio (conns weight : Int) : Ratio :=
  if weight = 0 then
    if conns = 0 then .nan else if 0 < conns then .inf else .negInf
  else .fin (goFloatDiv conns weight).1 (goFloatDiv conns weight).2

/-- Strict comparison of dyadic values: `m₁·2^e₁ < m₂·2^e₂`, decided by
shifting to the smaller exponent. -/
def dyadLt (m1 e1 m2 e2 : Int) : Bool :=
  if e1 ≤ e2 then m1 < m2 * 2 ^ (e2 - e1).toNat
  else m1 * 2 ^ (e1 - e2).toNat < m2

/-- IEEE `<` on `Ratio` values: any comparison with NaN is false; finite
doubles compare by their exact dyadic values. -/
def ratioLt : Ratio → Ratio → Bool
  | .nan, _ => false
  | _, .nan => false
  | .negInf, .negInf => false
  | .negInf, _ => true
  | _, .negInf => false
  | _, .inf => true
  | .inf, _ => false
  | .fin m1 e1, .fin m2 e2 => dyadLt m1 e1 m2 e2

/-- The scan loop of `weightedLeastConnections` over `backends[1:]`:
weight-0 entries are skipped, a strictly smaller ratio replaces the
selection. -/
def wlcGo (sel : Backend) (minRatio : Ratio) :
    List Backend → Backend
  | [] => sel
  | b :: rest =>
      if b.weight = 0 then wlcGo sel minRatio rest
      else
        let r := mkRatio b.connections b.weight
        if ratioLt r minRatio then wlcGo b r rest
        else wlcGo sel minRatio rest

/-- `weightedLeastConnections`: seeds the minimum with `backends[0]`'s
ratio — without checking its weight — then scans the rest. -/
def weightedLeastConnections (backends : List Backend) : Option Backend :=
  match backends with
  | [] => none
  | b0 :: rest => some (wlcGo b0 (mkRatio b0.connections b0.weight) rest)

/-- FNV-1a, 32 bits, over a byte sequence (`hash/fnv.New32a`). -/
def fnv32a (bytes : List Nat) : Nat :=
  bytes.foldl (fun h b => ((h ^^^ b % 256) * 16777619) % 2 ^ 32) 2166136261

/-- `ipHash`: FNV-1a hash of the client IP string, `int(h) % len`
(the `uint32 → int` conversion is value-preserving on 64-bit). -/
def ipHash (backends : List Backend) (clientIP : List Nat) : Option Backend :=
  if backends.isEmpty then none
  else backends.get? (fnv32a clientIP % backends.length)

/-- `random`: `rand.Intn(len(backends))`. -/
def randomSelect (backends : List Backend) (rand : Nat) : Option Backend :=
  if backends.isEmpty then none
  else backends.get? (rand % backends.length)

/-- `weightedRandom` reuses the `weightedRoundRobin` logic. -/
def weightedRandom (backends : List Backend) (rand : Nat) : Option Backend :=
  weightedRoundRobin backends rand

/-- `leastTime`: smallest last-observed response time, ties to the first
encountered. -/
def leastTime (backends : List Backend) : Option Backend :=
  match backends with
  | [] => none
  | b0 :: rest =>
      some (rest.foldl
        (fun sel b => if b.responseTime < sel.responseTime then b else sel) b0)

/-! ## Consistent hash ring

The Go ring keeps a `map[uint32]*Backend` and a sorted `[]uint32`.  The map
is modelled as an association list with insert-by-cons and
delete-by-filter (lookup finds the newest entry); the stored `*Backend` is
modelled by the backend's ID.  `sort.Slice` on a `[]uint32` is modelled by
`List.insertionSort (· ≤ ·)`: both produce the unique `≤`-sorted
permutation of the input. -/

/-- Lookup in the modelled Go map. -/
def mapLookup (m : List (Nat × String)) (k : Nat) : Option String :=
  (m.find? (fun p => p.1 == k)).map (·.2)

/-- `hashRing[k] = v`. -/
def mapInsert (m : List (Nat × String)) (k : Nat) (v : String) :
    List (Nat × String) :=
  (k, v) :: m

/-- `delete(hashRing, k)`. -/
def mapDelete (m : List (Nat × String)) (k : Nat) : List (Nat × String) :=
  m.filter (fun p => p.1 ≠ k)

/-- `ConsistentHash` from the source. -/
structure ConsistentHash where
  hashRing : List (Nat × String)
  sortedHashes : List Nat
  virtualNodes : Nat
deriving DecidableEq, Repr

/-- `NewConsistentHash`. -/
def NewConsistentHash (virtualNodes : Nat) : ConsistentHash :=
  { hashRing := [], sortedHashes := [], virtualNodes := virtualNodes }

/-- The bytes of a string (backend ids and client IPs are ASCII, where
UTF-8 bytes and code points agree). -/
def strBytes (s : String) : List Nat :=
  s.data.map Char.toNat

/-- ASCII decimal digits, by structural recursion on a fuel argument
(`fuel ≥ n` makes the fallback branch unreachable). -/
def decBytesAux : Nat → Nat → List Nat
  | 0, n => [48 + n % 10]
  | fuel + 1, n =>
      if n < 10 then [48 + n]
      else decBytesAux fuel (n / 10) ++ [48 + n % 10]

/-- ASCII decimal digits of a natural number (`fmt.Sprintf("%d", i)`). -/
def decBytes (n : Nat) : List Nat :=
  decBytesAux n n

/-- The virtual-node key `"{backendID}:{i}"` as bytes (58 is `':'`). -/
def vnodeKey (id : String) (i : Nat) : List Nat :=
  strBytes id ++ [58] ++ decBytes i

/-- The `virtualNodes` ring hashes of one backend. -/
def vnodeHashes (virtualNodes : Nat) (id : String) : List Nat :=
  (List.range virtualNodes).map (fun i => fnv32a (vnodeKey id i))

/-- `ConsistentHash.AddBackend`: for each `i`, insert
`hash("{id}:{i}")` into the map and append it to the hash sequence; then
re-sort the sequence. -/
def chAddBackend (ch : ConsistentHash) (id : String) : ConsistentHash :=
  let step := (vnodeHashes ch.virtualNodes id).foldl
    (fun (p : List (Nat × String) × List Nat) h =>
      (mapInsert p.1 h id, p.2 ++ [h]))
    (ch.hashRing, ch.sortedHashes)
  { ch with hashRing := step.1,
            sortedHashes := step.2.insertionSort (· ≤ ·) }

/-- `ConsistentHash.RemoveBackend`: for each `i`, delete
`hash("{id}:{i}")` from the map and remove its first occurrence from the
hash sequence. -/
def chRemoveBackend (ch : ConsistentHash) (id : String) : ConsistentHash :=
  let step := (vnodeHashes ch.virtualNodes id).foldl
    (fun (p : List (Nat × String) × List Nat) h =>
      (mapDelete p.1 h, p.2.erase h))
    (ch.hashRing, ch.sortedHashes)
  { ch with hashRing := step.1, sortedHashes := step.2 }

/-- The ring slot `GetBackend` resolves a key to: the first sorted hash
`≥ hash(key)` (`sort.Search` on a sorted sequence), wrapping to index 0;
`none` on an empty ring. -/
def ringSlot (ch : ConsistentHash) (key : List Nat) : Option Nat :=
  if ch.sortedHashes.isEmpty then none
  else
    let h := fnv32a key
    let idx := ch.sortedHashes.findIdx (fun x => decide (h ≤ x))
    some (ch.sortedHashes.getD
      (if idx = ch.sortedHashes.length then 0 else idx) 0)

/-- `ConsistentHash.GetBackend`. -/
def chGetBackend (ch : ConsistentHash) (key : List Nat) : Option String :=
  (ringSlot ch key).bind (fun h => mapLookup ch.hashRing h)

/-- `true` iff `GetBackend key` does not resolve to one of `id`'s
virtual-node hashes on this ring (the "previously-unaffected keys"). -/
def slotOutside (ch : ConsistentHash) (id : String) (key : List Nat) : Bool :=
  match ringSlot ch key with
  | none => true
  | some h => !((vnodeHashes ch.virtualNodes id).contains h)

/-! ## Load balancer: registry, statistics, dispatch -/

/-- `LoadBalancerStats` (the `AverageLatency`/`Throughput` fields are never
written by the source and are omitted; `LastReset` is set once at
construction). -/
structure LoadBalancerStats where
  totalRequests : Nat
  successRequests : Nat
  failedRequests : Nat
  activeConnections : Int
  lastReset : Int
deriving DecidableEq, Repr

/-- The `LoadBalancer` registry state reachable from the request path:
the backend list, the algorithm string, the statistics and the optional
consistent-hash ring. -/
structure LBState where
  backends : List Backend
  algorithm : String
  stats : LoadBalancerStats
  consistentHash : Option ConsistentHash
deriving DecidableEq, Repr

/-- The filter in `GetBackend`: healthy and
(`CircuitBreaker == nil || CanRequest()`). -/
def eligibleBackends (lb : LBState) (now : Int) : List Backend :=
  lb.backends.filter (fun b =>
    b.healthy && (match b.circuitBreaker with
                  | none => true
                  | some cb => canRequest cb now))

/-- `consistentHashSelect`: `nil` ring selects nothing; otherwise the
ring's backend for the client IP, resolved to the registry entry with that
ID (the Go ring returns the `*Backend` pointer directly; under unique ids
this is the registry entry). -/
def consistentHashSelect (lb : LBState) (clientIP : List Nat) :
    Option Backend :=
  match lb.consistentHash with
  | none => none
  | some ch =>
      (chGetBackend ch clientIP).bind
        (fun id => lb.backends.find? (fun b => b.id == id))

/-- `LoadBalancer.GetBackend`: filter to the eligible backends, error
(`none`) if there are none, then dispatch on the algorithm string, with
round-robin as the default case. -/
def getBackend (lb : LBState) (now : Int) (clientIP : List Nat)
    (rand : Nat) : Option Backend :=
  let healthy := eligibleBackends lb now
  if healthy.isEmpty then none
  else if lb.algorithm = "round_robin" then
    roundRobin lb.stats.totalRequests healthy
  else if lb.algorithm = "weighted_round_robin" then
    weightedRoundRobin healthy rand
  else if lb.algorithm = "least_connections" then
    leastConnections healthy
  else if lb.algorithm = "weighted_least_connections" then
    weightedLeastConnections healthy
  else if lb.algorithm = "ip_hash" then
    ipHash healthy clientIP
  else if lb.algorithm = "consistent_hash" then
    consistentHashSelect lb clientIP
  else if lb.algorithm = "random" then
    randomSelect healthy rand
  else if lb.algorithm = "weighted_random" then
    weightedRandom healthy rand
  else if lb.algorithm = "least_time" then
    leastTime healthy
  else
    roundRobin lb.stats.totalRequests healthy

/-- The statistics updates at the top of `ServeHTTP`:
`TotalRequests++`, `ActiveConnections++`. -/
def bumpOnEntry (s : LoadBalancerStats) : LoadBalancerStats :=
  { s with totalRequests := s.totalRequests + 1,
           activeConnections := s.activeConnections + 1 }

/-- `LoadBalancer.ServeHTTP`, returning the client-visible status code and
the successor state.  `proxyOK` is the outcome of the proxied call
(`httputil.ReverseProxy` writes 502 Bad Gateway on a transport error and
returns; the surrounding code cannot observe the outcome);
`upstreamStatus` is the upstream's status on success; `elapsed` is the
measured duration.  The deferred decrements of `ActiveConnections` and of
the chosen backend's `Connections` run before the handler returns and are
applied on every exit path. -/
def serveHTTP (lb : LBState) (now : Int) (clientIP : List Nat) (rand : Nat)
    (proxyOK : Bool) (upstreamStatus : Nat) (elapsed : Int) :
    Nat × LBState :=
  let lb1 := { lb with stats := bumpOnEntry lb.stats }
  match getBackend lb1 now clientIP rand with
  | none =>
      (503, { lb1 with stats :=
        { lb1.stats with
            failedRequests := lb1.stats.failedRequests + 1,
            activeConnections := lb1.stats.activeConnections - 1 } })
  | some b =>
      let status := if proxyOK then upstreamStatus else 502
      let b' := { b with
        connections := b.connections + 1 - 1,
        successCount := b.successCount + 1,
        responseTime := elapsed,
        circuitBreaker := b.circuitBreaker.map recordSuccess }
      (status, { lb1 with
        backends := lb1.backends.map (fun x => if x.id == b.id then b' else x),
        stats := { lb1.stats with
            successRequests := lb1.stats.successRequests + 1,
            activeConnections := lb1.stats.activeConnections - 1 } })

/-- Uniform selection among the eligible backends, as the spec's fallback
clause demands ("fall back to uniform selection"): the random draw taken
modulo the number of backends. -/
def uniformSelect (backends : List Backend) (rand : Nat) : Option Backend :=
  if backends.isEmpty then none
  else backends.get? (rand % backends.length)

/-! ## Circuit-breaker step lemmas -/

theorem recordFailure_of_opened (cb : CircuitBreaker) (t : Int)
    (h : cb.state = .opened) :
    recordFailure cb t =
      { cb with failureCount := cb.failureCount + 1, lastFailure := t } := by
  obtain ⟨cfg, st, fc, sc, lf⟩ := cb
  cases st <;> simp_all [recordFailure]

theorem recordFailure_of_closed (cb : CircuitBreaker) (t : Int)
    (h : cb.state = .closed) :
    recordFailure cb t =
      if cb.failureCount + 1 ≥ cb.config.failureThreshold then
        { cb with state := .opened, failureCount := cb.failureCount + 1,
                  successCount := 0, lastFailure := t }
      else
        { cb with failureCount := cb.failureCount + 1, lastFailure := t } := by
  obtain ⟨cfg, st, fc, sc, lf⟩ := cb
  cases st <;> simp_all [recordFailure]

theorem recordSuccess_of_opened (cb : CircuitBreaker)
    (h : cb.state = .opened) :
    recordSuccess cb = { cb with successCount := cb.successCount + 1 } := by
  obtain ⟨cfg, st, fc, sc, lf⟩ := cb
  cases st <;> simp_all [recordSuccess]

theorem recordSuccess_of_halfOpen (cb : CircuitBreaker)
    (h : cb.state = .halfOpen) :
    recordSuccess cb =
      if cb.successCount + 1 ≥ cb.config.successThreshold then
        { cb with state := .closed, failureCount := 0, successCount := 0 }
      else
        { cb with successCount := cb.successCount + 1 } := by
  obtain ⟨cfg, st, fc, sc, lf⟩ := cb
  cases st <;> simp_all [recordSuccess]

theorem recordFailure_config (cb : CircuitBreaker) (t : Int) :
    (recordFailure cb t).config = cb.config := by
  obtain ⟨cfg, st, fc, sc, lf⟩ := cb
  cases st
  · simp only [recordFailure]; split <;> rfl
  · rfl
  · rfl

theorem recordFailure_lastFailure (cb : CircuitBreaker) (t : Int) :
    (recordFailure cb t).lastFailure = t := by
  obtain ⟨cfg, st, fc, sc, lf⟩ := cb
  cases st
  · simp only [recordFailure]; split <;> rfl
  · rfl
  · rfl

theorem recordFailures_config (ts : List Int) :
    ∀ cb : CircuitBreaker, (recordFailures cb ts).config = cb.config := by
  induction ts with
  | nil => intro cb; rfl
  | cons t rest ih =>
      intro cb
      show (recordFailures (recordFailure cb t) rest).config = cb.config
      rw [ih, recordFailure_config]

theorem recordFailures_lastFailure (ts : List Int) :
    ∀ cb : CircuitBreaker,
      (recordFailures cb ts).lastFailure = ts.getLastD cb.lastFailure := by
  induction ts with
  | nil => intro cb; rfl
  | cons t rest ih =>
      intro cb
      show (recordFailures (recordFailure cb t) rest).lastFailure = _
      rw [ih, recordFailure_lastFailure, List.getLastD_cons]

theorem recordFailures_opens (ts : List Int) :
    ∀ cb : CircuitBreaker,
      (cb.state = .opened → (recordFailures cb ts).state = .opened) ∧
      (cb.state = .closed →
        cb.config.failureThreshold ≤ cb.failureCount + (ts.length : Int) →
        ts ≠ [] → (recordFailures cb ts).state = .opened) := by
  induction ts with
  | nil =>
      intro cb
      exact ⟨fun h => h, fun _ _ hne => absurd rfl hne⟩
  | cons t rest ih =>
      intro cb
      constructor
      · intro h
        show (recordFailures (recordFailure cb t) rest).state = .opened
        exact (ih _).1 (by rw [recordFailure_of_opened cb t h]; exact h)
      · intro h hle _
        show (recordFailures (recordFailure cb t) rest).state = .opened
        by_cases hth : cb.failureCount + 1 ≥ cb.config.failureThreshold
        · exact (ih _).1
            (by rw [recordFailure_of_closed cb t h, if_pos hth])
        · have hstep : recordFailure cb t =
              { cb with failureCount := cb.failureCount + 1, lastFailure := t } := by
            rw [recordFailure_of_closed cb t h, if_neg hth]
          cases rest with
          | nil => exfalso; simp at hle; omega
          | cons r rs =>
              refine (ih _).2 (by rw [hstep]; exact h) ?_ (by simp)
              rw [hstep]
              simp only [List.length_cons] at hle ⊢
              push_cast at hle ⊢
              omega

/-- C1: from a Closed breaker, `failure_threshold` consecutive
`RecordFailure` calls (at instants `ts`) leave the breaker Open; calling
`CanRequest` at the very instant of the last failure returns `false`; and
at any instant `t` whose elapsed time since the last recorded failure
exceeds the configured timeout, `CanRequest` returns `true`, no other call
having been made in between. -/
theorem claim1_breaker_opens_then_recovers (cb : CircuitBreaker)
    (ts : List Int) (t : Int)
    (hclosed : cb.state = .closed)
    (hfc : 0 ≤ cb.failureCount)
    (hthr : 1 ≤ cb.config.failureThreshold)
    (hlen : (ts.length : Int) = cb.config.failureThreshold)
    (htimeout : 0 ≤ cb.config.timeout) :
    (recordFailures cb ts).state = .opened ∧
    (recordFailures cb ts).lastFailure = ts.getLastD cb.lastFailure ∧
    canRequest (recordFailures cb ts) (recordFailures cb ts).lastFailure
      = false ∧
    (t - (recordFailures cb ts).lastFailure > cb.config.timeout →
      canRequest (recordFailures cb ts) t = true) := by
  have hne : ts ≠ [] := by
    intro h
    rw [h] at hlen
    simp at hlen
    omega
  have hopen : (recordFailures cb ts).state = .opened :=
    (recordFailures_opens ts cb).2 hclosed (by omega) hne
  have hcfg : (recordFailures cb ts).config = cb.config :=
    recordFailures_config ts cb
  refine ⟨hopen, recordFailures_lastFailure ts cb, ?_, ?_⟩
  · simp [canRequest, hopen, hcfg]
    omega
  · intro hel
    simp [canRequest, hopen, hcfg]
    omega

/-- C1 witness: threshold 2, timeout 60; two failures at instants 5 and 7,
recovery query at instant 100. -/
theorem claim1_witness :
    ((NewCircuitBreaker ⟨true, 2, 3, 60, 3⟩).state = .closed ∧
     (100 : Int) - (recordFailures (NewCircuitBreaker ⟨true, 2, 3, 60, 3⟩)
        [5, 7]).lastFailure > 60) ∧
    ((recordFailures (NewCircuitBreaker ⟨true, 2, 3, 60, 3⟩) [5, 7]).state
        = .opened ∧
     (recordFailures (NewCircuitBreaker ⟨true, 2, 3, 60, 3⟩) [5, 7]).lastFailure
        = [(5 : Int), 7].getLastD (NewCircuitBreaker ⟨true, 2, 3, 60, 3⟩).lastFailure ∧
     canRequest (recordFailures (NewCircuitBreaker ⟨true, 2, 3, 60, 3⟩) [5, 7])
        (recordFailures (NewCircuitBreaker ⟨true, 2, 3, 60, 3⟩)
          [5, 7]).lastFailure = false ∧
     ((100 : Int) - (recordFailures (NewCircuitBreaker ⟨true, 2, 3, 60, 3⟩)
        [5, 7]).lastFailure > 60 →
      canRequest (recordFailures (NewCircuitBreaker ⟨true, 2, 3, 60, 3⟩)
        [5, 7]) 100 = true)) :=
  ⟨by decide,
   claim1_breaker_opens_then_recovers (NewCircuitBreaker ⟨true, 2, 3, 60, 3⟩)
     [5, 7] 100 (by decide) (by decide) (by decide) (by decide) (by decide)⟩

/-- C4 counterexample: with `failure_threshold = 1`, one `RecordFailure`
moves the fresh Closed breaker to Open — a state transition into Open —
yet the failure counter in the resulting state is `1`, not `0`. -/
theorem claim4_cex_failure_counter_not_reset :
    (NewCircuitBreaker ⟨true, 1, 3, 60, 3⟩).state = .closed ∧
    (recordFailure (NewCircuitBreaker ⟨true, 1, 3, 60, 3⟩) 0).state
      = .opened ∧
    (recordFailure (NewCircuitBreaker ⟨true, 1, 3, 60, 3⟩) 0).failureCount
      ≠ 0 := by decide

/-- C4 amended: a `RecordSuccess` call that changes the state to Closed
resets both counters to zero; a `RecordFailure` call that changes the
state to Open resets the success counter to zero but leaves the failure
counter at its just-incremented value; `RecordFailure` never changes the
state to Closed, and `RecordSuccess` never changes it to Open. -/
theorem claim4_transition_counter_resets (cb : CircuitBreaker) (t : Int) :
    ((recordSuccess cb).state = .closed → cb.state ≠ .closed →
      (recordSuccess cb).failureCount = 0 ∧
      (recordSuccess cb).successCount = 0) ∧
    ((recordFailure cb t).state = .closed → cb.state = .closed) ∧
    ((recordFailure cb t).state = .opened → cb.state ≠ .opened →
      (recordFailure cb t).successCount = 0 ∧
      (recordFailure cb t).failureCount = cb.failureCount + 1) ∧
    ((recordSuccess cb).state = .opened → cb.state = .opened) := by
  obtain ⟨cfg, st, fc, sc, lf⟩ := cb
  cases st <;>
    simp only [recordSuccess, recordFailure] <;>
    refine ⟨?_, ?_, ?_, ?_⟩ <;>
    (try split) <;> intros <;> simp_all

/-- C4 amended witness: a HalfOpen breaker one success short of its
threshold; `RecordSuccess` moves it to Closed with both counters zero. -/
theorem claim4_transition_counter_resets_witness :
    (recordSuccess ⟨⟨true, 5, 1, 60, 3⟩, .halfOpen, 4, 0, 9⟩).state
      = .closed ∧
    ((recordSuccess ⟨⟨true, 5, 1, 60, 3⟩, .halfOpen, 4, 0, 9⟩).failureCount
        = 0 ∧
     (recordSuccess ⟨⟨true, 5, 1, 60, 3⟩, .halfOpen, 4, 0, 9⟩).successCount
        = 0) :=
  ⟨by decide,
   (claim4_transition_counter_resets ⟨⟨true, 5, 1, 60, 3⟩, .halfOpen, 4, 0, 9⟩
      0).1 (by decide) (by decide)⟩

/-- A HalfOpen breaker with success counter `s` closes after exactly
`n` consecutive successes when `successThreshold = s + n`, and the
resulting counters are both zero. -/
theorem successRun_closes (n : Nat) :
    ∀ cb : CircuitBreaker, cb.state = .halfOpen →
      cb.config.successThreshold = cb.successCount + (n : Int) → 1 ≤ n →
      (recordSuccess^[n] cb).state = .closed ∧
      (recordSuccess^[n] cb).failureCount = 0 ∧
      (recordSuccess^[n] cb).successCount = 0 := by
  induction n with
  | zero => intro cb _ _ h; omega
  | succ m ih =>
      intro cb hst heq _
      rw [Function.iterate_succ_apply]
      rcases Nat.eq_zero_or_pos m with hm | hm
      · subst hm
        simp only [Function.iterate_zero_apply]
        rw [recordSuccess_of_halfOpen cb hst,
            if_pos (by push_cast at heq; omega)]
        exact ⟨rfl, rfl, rfl⟩
      · have hlt : ¬ (cb.successCount + 1 ≥ cb.config.successThreshold) := by
          push_cast at heq; omega
        rw [recordSuccess_of_halfOpen cb hst, if_neg hlt]
        refine ih _ hst ?_ hm
        show cb.config.successThreshold = cb.successCount + 1 + (m : Int)
        push_cast at heq ⊢
        omega

/-- C6: from a HalfOpen breaker (with a fresh half-open window, success
counter zero), one single `RecordFailure` moves it to Open, and
`success_threshold` consecutive `RecordSuccess` calls move it to Closed
with both counters zero. -/
theorem claim6_halfopen_transitions (cb : CircuitBreaker) (t : Int)
    (hst : cb.state = .halfOpen) (hsc : cb.successCount = 0)
    (hthr : 1 ≤ cb.config.successThreshold) :
    (recordFailure cb t).state = .opened ∧
    (recordSuccess^[cb.config.successThreshold.toNat] cb).state = .closed ∧
    (recordSuccess^[cb.config.successThreshold.toNat] cb).failureCount
      = 0 ∧
    (recordSuccess^[cb.config.successThreshold.toNat] cb).successCount
      = 0 := by
  have h1 : (recordFailure cb t).state = .opened := by
    obtain ⟨cfg, st, fc, sc, lf⟩ := cb
    cases st <;> simp_all [recordFailure]
  have h2 := successRun_closes cb.config.successThreshold.toNat cb hst
    (by rw [hsc, Int.toNat_of_nonneg (by omega)]; omega) (by omega)
  exact ⟨h1, h2.1, h2.2.1, h2.2.2⟩

/-- C6 witness: threshold 2, HalfOpen with success counter 0: one failure
reopens; two successes close with both counters zero. -/
theorem claim6_halfopen_transitions_witness :
    ((⟨⟨true, 5, 2, 60, 3⟩, .halfOpen, 7, 0, 9⟩ : CircuitBreaker).state
        = .halfOpen ∧
     (⟨⟨true, 5, 2, 60, 3⟩, .halfOpen, 7, 0, 9⟩ : CircuitBreaker).successCount
        = 0) ∧
    ((recordFailure ⟨⟨true, 5, 2, 60, 3⟩, .halfOpen, 7, 0, 9⟩ 11).state
        = .opened ∧
     (recordSuccess^[(2 : Int).toNat]
        (⟨⟨true, 5, 2, 60, 3⟩, .halfOpen, 7, 0, 9⟩ : CircuitBreaker)).state
        = .closed ∧
     (recordSuccess^[(2 : Int).toNat]
        (⟨⟨true, 5, 2, 60, 3⟩, .halfOpen, 7, 0, 9⟩ : CircuitBreaker)).failureCount
        = 0 ∧
     (recordSuccess^[(2 : Int).toNat]
        (⟨⟨true, 5, 2, 60, 3⟩, .halfOpen, 7, 0, 9⟩ : CircuitBreaker)).successCount
        = 0) :=
  ⟨by decide,
   claim6_halfopen_transitions ⟨⟨true, 5, 2, 60, 3⟩, .halfOpen, 7, 0, 9⟩ 11
     (by decide) (by decide) (by decide)⟩

theorem applyOp_not_halfOpen (cb : CircuitBreaker) (op : CBOp)
    (h : cb.state ≠ .halfOpen) : (applyOp cb op).state ≠ .halfOpen := by
  obtain ⟨cfg, st, fc, sc, lf⟩ := cb
  cases op <;> cases st
  all_goals simp_all [applyOp, recordSuccess, recordFailure]
  all_goals try split
  all_goals simp_all

theorem applyOps_not_halfOpen (ops : List CBOp) :
    ∀ cb : CircuitBreaker, cb.state ≠ .halfOpen →
      (applyOps cb ops).state ≠ .halfOpen := by
  induction ops with
  | nil => intro cb h; exact h
  | cons op rest ih =>
      intro cb h
      exact ih (applyOp cb op) (applyOp_not_halfOpen cb op h)

theorem applyOps_replicate_recFailure (n : Nat) :
    ∀ cb : CircuitBreaker,
      applyOps cb (List.replicate n (.recFailure 0)) =
        recordFailures cb (List.replicate n 0) := by
  induction n with
  | zero => intro cb; rfl
  | succ m ih =>
      intro cb
      show applyOps (applyOp cb (.recFailure 0)) (List.replicate m _) = _
      rw [ih]
      rfl

/-- C10: starting from `NewCircuitBreaker` (Closed), every sequence of
`CanRequest` / `RecordSuccess` / `RecordFailure` calls leaves the breaker
in Closed or Open — never HalfOpen (no operation moves Open to HalfOpen).
Both non-HalfOpen states do occur: the empty sequence leaves it Closed,
and `failureThreshold.toNat + 1` consecutive failures leave it Open. -/
theorem claim10_halfopen_unreachable (cfg : CircuitBreakerConfig)
    (ops : List CBOp) :
    ((applyOps (NewCircuitBreaker cfg) ops).state = .closed ∨
     (applyOps (NewCircuitBreaker cfg) ops).state = .opened) ∧
    (applyOps (NewCircuitBreaker cfg) []).state = .closed ∧
    (applyOps (NewCircuitBreaker cfg)
        (List.replicate (cfg.failureThreshold.toNat + 1)
          (.recFailure 0))).state = .opened := by
  refine ⟨?_, rfl, ?_⟩
  · have h := applyOps_not_halfOpen ops (NewCircuitBreaker cfg) (by
      show CircuitState.closed ≠ .halfOpen
      simp)
    cases hs : (applyOps (NewCircuitBreaker cfg) ops).state
    · exact Or.inl rfl
    · exact Or.inr rfl
    · exact absurd hs h
  · rw [applyOps_replicate_recFailure]
    refine (recordFailures_opens _ _).2 rfl ?_ (by simp)
    show cfg.failureThreshold ≤ 0 + ((List.replicate
      (cfg.failureThreshold.toNat + 1) (0 : Int)).length : Int)
    simp only [List.length_replicate]
    have := Int.self_le_toNat cfg.failureThreshold
    push_cast
    omega

/-- C5 refuted (code bug): however many successful health probes are
recorded against a backend whose breaker is Open — at whatever instants,
however far past the timeout — the breaker's state remains Open and never
becomes Closed: `RecordSuccess` has no `Open` case and nothing in the
package ever assigns the HalfOpen state. -/
theorem claim5_open_never_closes (b : Backend) (cb : CircuitBreaker)
    (hb : b.circuitBreaker = some cb) (hcb : cb.state = .opened)
    (probes : List Int) :
    ∃ cb', (runProbes b (probes.map (fun t => (t, true)))).circuitBreaker
        = some cb' ∧ cb'.state = .opened := by
  induction probes generalizing b cb with
  | nil => exact ⟨cb, hb, hcb⟩
  | cons t rest ih =>
      show ∃ cb', (runProbes (checkBackendHealth b t true) _).circuitBreaker
          = some cb' ∧ cb'.state = .opened
      refine ih _ (recordSuccess cb) ?_ ?_
      · simp [checkBackendHealth, hb]
      · rw [recordSuccess_of_opened cb hcb]; exact hcb

/-- C5 witness: a backend with an Open breaker (threshold 1, timeout 5,
last failure at instant 0); three successful probes at instants 10, 20, 30
— all far past the timeout, `CanRequest` already answering `true` — leave
the breaker Open. -/
theorem claim5_open_never_closes_witness :
    ((⟨⟨true, 1, 1, 5, 3⟩, .opened, 1, 0, 0⟩ : CircuitBreaker).state
        = .opened ∧
     canRequest ⟨⟨true, 1, 1, 5, 3⟩, .opened, 1, 0, 0⟩ 10 = true) ∧
    (∃ cb', (runProbes
        ⟨"a", 1, false, 0, 0, 0, 0, 0,
          some ⟨⟨true, 1, 1, 5, 3⟩, .opened, 1, 0, 0⟩⟩
        ([10, 20, 30].map (fun t => (t, true)))).circuitBreaker = some cb'
      ∧ cb'.state = .opened) :=
  ⟨by decide,
   claim5_open_never_closes
     ⟨"a", 1, false, 0, 0, 0, 0, 0, some ⟨⟨true, 1, 1, 5, 3⟩, .opened, 1, 0, 0⟩⟩
     ⟨⟨true, 1, 1, 5, 3⟩, .opened, 1, 0, 0⟩ (by decide) (by decide)
     [10, 20, 30]⟩

/-- C2: whenever the eligible set (healthy backends whose breaker permits
requests) is empty, `ServeHTTP` answers 503 Service Unavailable,
increments the failed-request and total-request statistics, and leaves the
backend list — in particular every backend's connection counter —
untouched. -/
theorem claim2_dispatch_no_eligible (lb : LBState) (now : Int)
    (clientIP : List Nat) (rand : Nat) (proxyOK : Bool)
    (upstreamStatus : Nat) (elapsed : Int)
    (h : eligibleBackends lb now = []) :
    (serveHTTP lb now clientIP rand proxyOK upstreamStatus elapsed).1
      = 503 ∧
    (serveHTTP lb now clientIP rand proxyOK upstreamStatus
        elapsed).2.stats.failedRequests = lb.stats.failedRequests + 1 ∧
    (serveHTTP lb now clientIP rand proxyOK upstreamStatus
        elapsed).2.backends = lb.backends ∧
    (serveHTTP lb now clientIP rand proxyOK upstreamStatus
        elapsed).2.stats.totalRequests = lb.stats.totalRequests + 1 := by
  have he : eligibleBackends { lb with stats := bumpOnEntry lb.stats } now
      = [] := h
  have hg : getBackend { lb with stats := bumpOnEntry lb.stats } now
      clientIP rand = none := by
    simp [getBackend, he]
  simp only [serveHTTP]
  rw [hg]
  simp [bumpOnEntry]

/-- C2 witness: a registry with one unhealthy backend and one whose Open
breaker (recent failure) blocks requests; the eligible set is empty. -/
theorem claim2_dispatch_no_eligible_witness :
    (eligibleBackends
        ⟨[⟨"a", 1, false, 0, 0, 0, 0, 0, none⟩,
          ⟨"b", 1, true, 0, 0, 0, 0, 0,
            some ⟨⟨true, 1, 3, 60, 3⟩, .opened, 1, 0, 90⟩⟩],
         "round_robin", ⟨4, 2, 1, 0, 0⟩, none⟩ 100 = []) ∧
    ((serveHTTP ⟨[⟨"a", 1, false, 0, 0, 0, 0, 0, none⟩,
          ⟨"b", 1, true, 0, 0, 0, 0, 0,
            some ⟨⟨true, 1, 3, 60, 3⟩, .opened, 1, 0, 90⟩⟩],
         "round_robin", ⟨4, 2, 1, 0, 0⟩, none⟩ 100 [] 0 true 200 5).1 = 503 ∧
     (serveHTTP ⟨[⟨"a", 1, false, 0, 0, 0, 0, 0, none⟩,
          ⟨"b", 1, true, 0, 0, 0, 0, 0,
            some ⟨⟨true, 1, 3, 60, 3⟩, .opened, 1, 0, 90⟩⟩],
         "round_robin", ⟨4, 2, 1, 0, 0⟩, none⟩ 100 [] 0 true 200
        5).2.stats.failedRequests = 1 + 1 ∧
     (serveHTTP ⟨[⟨"a", 1, false, 0, 0, 0, 0, 0, none⟩,
          ⟨"b", 1, true, 0, 0, 0, 0, 0,
            some ⟨⟨true, 1, 3, 60, 3⟩, .opened, 1, 0, 90⟩⟩],
         "round_robin", ⟨4, 2, 1, 0, 0⟩, none⟩ 100 [] 0 true 200
        5).2.backends =
       [⟨"a", 1, false, 0, 0, 0, 0, 0, none⟩,
        ⟨"b", 1, true, 0, 0, 0, 0, 0,
          some ⟨⟨true, 1, 3, 60, 3⟩, .opened, 1, 0, 90⟩⟩] ∧
     (serveHTTP ⟨[⟨"a", 1, false, 0, 0, 0, 0, 0, none⟩,
          ⟨"b", 1, true, 0, 0, 0, 0, 0,
            some ⟨⟨true, 1, 3, 60, 3⟩, .opened, 1, 0, 90⟩⟩],
         "round_robin", ⟨4, 2, 1, 0, 0⟩, none⟩ 100 [] 0 true 200
        5).2.stats.totalRequests = 4 + 1) :=
  ⟨by decide,
   claim2_dispatch_no_eligible
     ⟨[⟨"a", 1, false, 0, 0, 0, 0, 0, none⟩,
       ⟨"b", 1, true, 0, 0, 0, 0, 0,
         some ⟨⟨true, 1, 3, 60, 3⟩, .opened, 1, 0, 90⟩⟩],
      "round_robin", ⟨4, 2, 1, 0, 0⟩, none⟩ 100 [] 0 true 200 5 (by decide)⟩

/-- C3 counterexample: one healthy backend with a fresh Closed breaker of
failure threshold 1; the proxied call fails (`proxyOK = false`, the client
receives the reverse proxy's 502), yet `ServeHTTP` updates the backend's
breaker with `RecordSuccess` — the breaker stays Closed, whereas a
recorded failure would have opened this threshold-1 breaker. -/
theorem claim3_cex_proxy_failure_records_success :
    ((serveHTTP ⟨[⟨"a", 1, true, 0, 0, 0, 0, 0,
          some ⟨⟨true, 1, 3, 60, 3⟩, .closed, 0, 0, 0⟩⟩],
        "round_robin", ⟨0, 0, 0, 0, 0⟩, none⟩ 0 [] 0 false 200 7).1
      = 502) ∧
    ((serveHTTP ⟨[⟨"a", 1, true, 0, 0, 0, 0, 0,
          some ⟨⟨true, 1, 3, 60, 3⟩, .closed, 0, 0, 0⟩⟩],
        "round_robin", ⟨0, 0, 0, 0, 0⟩, none⟩ 0 [] 0 false 200
        7).2.backends.head?.bind (·.circuitBreaker)
      = some (recordSuccess ⟨⟨true, 1, 3, 60, 3⟩, .closed, 0, 0, 0⟩)) ∧
    (recordSuccess ⟨⟨true, 1, 3, 60, 3⟩, .closed, 0, 0, 0⟩).state
      = .closed ∧
    (recordFailure ⟨⟨true, 1, 3, 60, 3⟩, .closed, 0, 0, 0⟩ 0).state
      = .opened ∧
    recordSuccess ⟨⟨true, 1, 3, 60, 3⟩, .closed, 0, 0, 0⟩
      ≠ recordFailure ⟨⟨true, 1, 3, 60, 3⟩, .closed, 0, 0, 0⟩ 0 := by
  decide

/-- C3 amended: whenever a backend is selected, `ServeHTTP` updates that
backend — for every outcome of the proxied call, success or failure — by
bumping its success counter, storing the elapsed time and applying
`RecordSuccess` to its breaker; `RecordFailure` is never invoked on the
dispatch path (only the health checker records failures). -/
theorem claim3_dispatch_always_records_success (lb : LBState) (now : Int)
    (clientIP : List Nat) (rand : Nat) (proxyOK : Bool)
    (upstreamStatus : Nat) (elapsed : Int) (b : Backend)
    (hsel : getBackend { lb with stats := bumpOnEntry lb.stats } now
      clientIP rand = some b) :
    (serveHTTP lb now clientIP rand proxyOK upstreamStatus elapsed).1
      = (if proxyOK then upstreamStatus else 502) ∧
    (serveHTTP lb now clientIP rand proxyOK upstreamStatus
        elapsed).2.backends =
      lb.backends.map (fun x => if x.id == b.id then
        { b with connections := b.connections + 1 - 1,
                 successCount := b.successCount + 1,
                 responseTime := elapsed,
                 circuitBreaker := b.circuitBreaker.map recordSuccess }
        else x) := by
  constructor
  · simp only [serveHTTP]
    rw [hsel]
  · simp only [serveHTTP]
    rw [hsel]

/-- C3 amended witness: the threshold-1 backend of the counterexample,
with a failing proxied call. -/
theorem claim3_dispatch_always_records_success_witness :
    (getBackend { (⟨[⟨"a", 1, true, 0, 0, 0, 0, 0,
          some ⟨⟨true, 1, 3, 60, 3⟩, .closed, 0, 0, 0⟩⟩],
        "round_robin", ⟨0, 0, 0, 0, 0⟩, none⟩ : LBState) with
        stats := bumpOnEntry ⟨0, 0, 0, 0, 0⟩ } 0 [] 0
      = some ⟨"a", 1, true, 0, 0, 0, 0, 0,
          some ⟨⟨true, 1, 3, 60, 3⟩, .closed, 0, 0, 0⟩⟩) ∧
    ((serveHTTP ⟨[⟨"a", 1, true, 0, 0, 0, 0, 0,
          some ⟨⟨true, 1, 3, 60, 3⟩, .closed, 0, 0, 0⟩⟩],
        "round_robin", ⟨0, 0, 0, 0, 0⟩, none⟩ 0 [] 0 false 200 7).1
      = (if false then 200 else 502) ∧
     (serveHTTP ⟨[⟨"a", 1, true, 0, 0, 0, 0, 0,
          some ⟨⟨true, 1, 3, 60, 3⟩, .closed, 0, 0, 0⟩⟩],
        "round_robin", ⟨0, 0, 0, 0, 0⟩, none⟩ 0 [] 0 false 200
        7).2.backends =
      [(⟨"a", 1, true, 0, 0, 0, 0, 0,
          some ⟨⟨true, 1, 3, 60, 3⟩, .closed, 0, 0, 0⟩⟩ : Backend)].map
        (fun x => if x.id ==
            (⟨"a", 1, true, 0, 0, 0, 0, 0,
              some ⟨⟨true, 1, 3, 60, 3⟩, .closed, 0, 0, 0⟩⟩ : Backend).id then
          { (⟨"a", 1, true, 0, 0, 0, 0, 0,
              some ⟨⟨true, 1, 3, 60, 3⟩, .closed, 0, 0, 0⟩⟩ : Backend) with
            connections := (⟨"a", 1, true, 0, 0, 0, 0, 0,
              some ⟨⟨true, 1, 3, 60, 3⟩, .closed, 0, 0, 0⟩⟩ :
                Backend).connections + 1 - 1,
            successCount := (⟨"a", 1, true, 0, 0, 0, 0, 0,
              some ⟨⟨true, 1, 3, 60, 3⟩, .closed, 0, 0, 0⟩⟩ :
                Backend).successCount + 1,
            responseTime := (7 : Int),
            circuitBreaker := (⟨"a", 1, true, 0, 0, 0, 0, 0,
              some ⟨⟨true, 1, 3, 60, 3⟩, .closed, 0, 0, 0⟩⟩ :
                Backend).circuitBreaker.map recordSuccess }
          else x)) :=
  ⟨by decide,
   claim3_dispatch_always_records_success
     ⟨[⟨"a", 1, true, 0, 0, 0, 0, 0,
         some ⟨⟨true, 1, 3, 60, 3⟩, .closed, 0, 0, 0⟩⟩],
       "round_robin", ⟨0, 0, 0, 0, 0⟩, none⟩ 0 [] 0 false 200 7
     ⟨"a", 1, true, 0, 0, 0, 0, 0,
       some ⟨⟨true, 1, 3, 60, 3⟩, .closed, 0, 0, 0⟩⟩ (by decide)⟩

/-- C7 counterexample: two distinct all-zero-weight backends.  Uniform
selection varies with the random draw (draw 1 picks the second backend),
but `weightedRoundRobin` — and `weightedRandom`, which reuses it — ignores
the draw entirely and always returns the first backend. -/
theorem claim7_cex_zero_weights_not_uniform :
    weightedRoundRobin [⟨"a", 0, true, 0, 0, 0, 0, 0, none⟩,
        ⟨"b", 0, true, 0, 0, 0, 0, 0, none⟩] 0
      = some ⟨"a", 0, true, 0, 0, 0, 0, 0, none⟩ ∧
    weightedRoundRobin [⟨"a", 0, true, 0, 0, 0, 0, 0, none⟩,
        ⟨"b", 0, true, 0, 0, 0, 0, 0, none⟩] 1
      = some ⟨"a", 0, true, 0, 0, 0, 0, 0, none⟩ ∧
    weightedRandom [⟨"a", 0, true, 0, 0, 0, 0, 0, none⟩,
        ⟨"b", 0, true, 0, 0, 0, 0, 0, none⟩] 1
      = some ⟨"a", 0, true, 0, 0, 0, 0, 0, none⟩ ∧
    uniformSelect [⟨"a", 0, true, 0, 0, 0, 0, 0, none⟩,
        ⟨"b", 0, true, 0, 0, 0, 0, 0, none⟩] 1
      = some ⟨"b", 0, true, 0, 0, 0, 0, 0, none⟩ ∧
    weightedRandom [⟨"a", 0, true, 0, 0, 0, 0, 0, none⟩,
        ⟨"b", 0, true, 0, 0, 0, 0, 0, none⟩] 1
      ≠ uniformSelect [⟨"a", 0, true, 0, 0, 0, 0, 0, none⟩,
        ⟨"b", 0, true, 0, 0, 0, 0, 0, none⟩] 1 := by
  decide

/-- C7 amended: on a non-empty eligible set whose weights are all zero,
the total weight is zero and `weightedRoundRobin` / `weightedRandom`
deterministically return the first backend, whatever the random draw —
the weighted draw (`rand.Intn(totalWeight)`) is never taken, so no
division by zero (or `Intn` panic) occurs, but the fallback is not
uniform selection. -/
theorem claim7_zero_weights_first_backend (backends : List Backend)
    (rand : Nat) (hne : backends ≠ [])
    (hz : ∀ b ∈ backends, b.weight = 0) :
    totalWeight backends = 0 ∧
    weightedRoundRobin backends rand = backends.head? ∧
    weightedRandom backends rand = backends.head? := by
  have htw : totalWeight backends = 0 := by
    apply List.sum_eq_zero
    intro x hx
    obtain ⟨b, hb, rfl⟩ := List.mem_map.mp hx
    exact hz b hb
  have hwrr : weightedRoundRobin backends rand = backends.head? := by
    obtain ⟨b, rest, rfl⟩ := List.exists_cons_of_ne_nil hne
    simp [weightedRoundRobin, htw]
  exact ⟨htw, hwrr, hwrr⟩

/-- C7 amended witness: three zero-weight backends, draw 5. -/
theorem claim7_zero_weights_first_backend_witness :
    (([⟨"a", 0, true, 0, 0, 0, 0, 0, none⟩,
       ⟨"b", 0, true, 0, 0, 0, 0, 0, none⟩,
       ⟨"c", 0, true, 0, 0, 0, 0, 0, none⟩] : List Backend) ≠ [] ∧
     ∀ b ∈ ([⟨"a", 0, true, 0, 0, 0, 0, 0, none⟩,
       ⟨"b", 0, true, 0, 0, 0, 0, 0, none⟩,
       ⟨"c", 0, true, 0, 0, 0, 0, 0, none⟩] : List Backend),
        b.weight = 0) ∧
    (totalWeight [⟨"a", 0, true, 0, 0, 0, 0, 0, none⟩,
        ⟨"b", 0, true, 0, 0, 0, 0, 0, none⟩,
        ⟨"c", 0, true, 0, 0, 0, 0, 0, none⟩] = 0 ∧
     weightedRoundRobin [⟨"a", 0, true, 0, 0, 0, 0, 0, none⟩,
        ⟨"b", 0, true, 0, 0, 0, 0, 0, none⟩,
        ⟨"c", 0, true, 0, 0, 0, 0, 0, none⟩] 5 =
      ([⟨"a", 0, true, 0, 0, 0, 0, 0, none⟩,
        ⟨"b", 0, true, 0, 0, 0, 0, 0, none⟩,
        ⟨"c", 0, true, 0, 0, 0, 0, 0, none⟩] : List Backend).head? ∧
     weightedRandom [⟨"a", 0, true, 0, 0, 0, 0, 0, none⟩,
        ⟨"b", 0, true, 0, 0, 0, 0, 0, none⟩,
        ⟨"c", 0, true, 0, 0, 0, 0, 0, none⟩] 5 =
      ([⟨"a", 0, true, 0, 0, 0, 0, 0, none⟩,
        ⟨"b", 0, true, 0, 0, 0, 0, 0, none⟩,
        ⟨"c", 0, true, 0, 0, 0, 0, 0, none⟩] : List Backend).head?) :=
  ⟨⟨by decide, by decide⟩,
   claim7_zero_weights_first_backend
     [⟨"a", 0, true, 0, 0, 0, 0, 0, none⟩,
      ⟨"b", 0, true, 0, 0, 0, 0, 0, none⟩,
      ⟨"c", 0, true, 0, 0, 0, 0, 0, none⟩] 5 (by decide) (by decide)⟩

/-- C8 counterexample: the scan seeds its minimum with `backends[0]`
without checking its weight.  A first backend with weight 0 and 0
connections yields the ratio `0.0/0.0 = NaN`; every IEEE comparison
against NaN is false, so no later backend ever replaces it, and the
weight-0 backend is returned although a positive-weight backend is
present. -/
theorem claim8_cex_zero_weight_selected :
    weightedLeastConnections [⟨"a", 0, true, 0, 0, 0, 0, 0, none⟩,
        ⟨"b", 1, true, 0, 5, 0, 0, 0, none⟩]
      = some ⟨"a", 0, true, 0, 0, 0, 0, 0, none⟩ ∧
    (⟨"a", 0, true, 0, 0, 0, 0, 0, none⟩ : Backend).weight = 0 ∧
    (0 : Int) < (⟨"b", 1, true, 0, 5, 0, 0, 0, none⟩ : Backend).weight := by
  decide

theorem mkRatio_pos (c w : Int) (h : 0 < w) :
    mkRatio c w = .fin (goFloatDiv c w).1 (goFloatDiv c w).2 := by
  unfold mkRatio
  rw [if_neg (by omega)]

/-- Proof-side valuation: the rational value `m·2^e` of a dyadic pair. -/
def dyadVal (m e : Int) : ℚ := (m : ℚ) * 2 ^ e

/-- Proof-side valuation of the finite double
`float64(conns) / float64(weight)`. -/
def goRatioVal (conns weight : Int) : ℚ :=
  dyadVal (goFloatDiv conns weight).1 (goFloatDiv conns weight).2

theorem dyadLt_iff (m1 e1 m2 e2 : Int) :
    dyadLt m1 e1 m2 e2 = true ↔ dyadVal m1 e1 < dyadVal m2 e2 := by
  unfold dyadLt dyadVal
  by_cases h : e1 ≤ e2
  · rw [if_pos h]
    have h2 : (2 : ℚ) ^ e2 = 2 ^ ((e2 - e1).toNat : Int) * 2 ^ e1 := by
      rw [← zpow_add₀ (by norm_num : (2 : ℚ) ≠ 0)]
      congr 1
      omega
    rw [h2, ← mul_assoc, mul_lt_mul_right (zpow_pos (by norm_num) e1),
      zpow_natCast]
    constructor
    · intro hb
      have := of_decide_eq_true hb
      exact_mod_cast this
    · intro hq
      apply decide_eq_true
      exact_mod_cast hq
  · rw [if_neg h]
    have h2 : (2 : ℚ) ^ e1 = 2 ^ ((e1 - e2).toNat : Int) * 2 ^ e2 := by
      rw [← zpow_add₀ (by norm_num : (2 : ℚ) ≠ 0)]
      congr 1
      omega
    rw [h2, ← mul_assoc, mul_lt_mul_right (zpow_pos (by norm_num) e2),
      zpow_natCast]
    constructor
    · intro hb
      have := of_decide_eq_true hb
      exact_mod_cast this
    · intro hq
      apply decide_eq_true
      exact_mod_cast hq

theorem ratioLt_fin_iff (m1 e1 m2 e2 : Int) :
    ratioLt (.fin m1 e1) (.fin m2 e2) = true ↔
      dyadVal m1 e1 < dyadVal m2 e2 :=
  dyadLt_iff m1 e1 m2 e2

theorem ratioLt_fin_false_of_le (m1 e1 m2 e2 : Int)
    (h : dyadVal m1 e1 ≤ dyadVal m2 e2) :
    ratioLt (.fin m2 e2) (.fin m1 e1) = false := by
  cases hq : ratioLt (.fin m2 e2) (.fin m1 e1) with
  | false => rfl
  | true => exact absurd ((ratioLt_fin_iff _ _ _ _).mp hq) (not_lt.mpr h)

/-- The scan of `weightedLeastConnections`, started at a positive-weight
backend with its own float64 ratio as the current minimum and run over a
list of non-negative-weight backends, ends at a positive-weight backend
drawn from the inputs whose float64 connections-to-weight ratio (valued
exactly by `goRatioVal`) is minimal. -/
theorem wlcGo_min (l : List Backend) :
    ∀ sel : Backend, 0 < sel.weight → (∀ b ∈ l, 0 ≤ b.weight) →
      0 < (wlcGo sel (mkRatio sel.connections sel.weight) l).weight ∧
      (wlcGo sel (mkRatio sel.connections sel.weight) l = sel ∨
        wlcGo sel (mkRatio sel.connections sel.weight) l ∈ l) ∧
      goRatioVal
          (wlcGo sel (mkRatio sel.connections sel.weight) l).connections
          (wlcGo sel (mkRatio sel.connections sel.weight) l).weight
        ≤ goRatioVal sel.connections sel.weight ∧
      (∀ b ∈ l, 0 < b.weight →
        goRatioVal
            (wlcGo sel (mkRatio sel.connections sel.weight) l).connections
            (wlcGo sel (mkRatio sel.connections sel.weight) l).weight
          ≤ goRatioVal b.connections b.weight) := by
  induction l with
  | nil =>
      intro sel hsel _
      exact ⟨hsel, Or.inl rfl, le_refl _,
        fun b hb => absurd hb (List.not_mem_nil b)⟩
  | cons b rest ih =>
      intro sel hsel hnn
      have hnnr : ∀ c ∈ rest, 0 ≤ c.weight :=
        fun c hc => hnn c (List.mem_cons_of_mem b hc)
      by_cases hb0 : b.weight = 0
      · -- weight-0 entries are skipped
        have hstep : wlcGo sel (mkRatio sel.connections sel.weight) (b :: rest)
            = wlcGo sel (mkRatio sel.connections sel.weight) rest := by
          simp [wlcGo, hb0]
        obtain ⟨h1, h2, h3, h4⟩ := ih sel hsel hnnr
        rw [hstep]
        refine ⟨h1, ?_, h3, ?_⟩
        · rcases h2 with h | h
          · exact Or.inl h
          · exact Or.inr (List.mem_cons_of_mem b h)
        · intro c hc hcw
          rcases List.mem_cons.mp hc with rfl | hc
          · exact absurd hcw (by omega)
          · exact h4 c hc hcw
      · have hbw : 0 < b.weight := by
          have := hnn b (List.mem_cons_self b rest)
          omega
        by_cases hlt :
            ratioLt (mkRatio b.connections b.weight)
              (mkRatio sel.connections sel.weight) = true
        · -- b's rounded ratio is strictly smaller: restart the scan at b
          have hblt : goRatioVal b.connections b.weight
              < goRatioVal sel.connections sel.weight := by
            rw [mkRatio_pos _ _ hbw, mkRatio_pos _ _ hsel] at hlt
            exact (ratioLt_fin_iff _ _ _ _).mp hlt
          have hstep : wlcGo sel (mkRatio sel.connections sel.weight)
              (b :: rest)
              = wlcGo b (mkRatio b.connections b.weight) rest := by
            simp [wlcGo, hb0, hlt]
          obtain ⟨h1, h2, h3, h4⟩ := ih b hbw hnnr
          rw [hstep]
          refine ⟨h1, ?_, le_of_lt (lt_of_le_of_lt h3 hblt), ?_⟩
          · rcases h2 with h | h
            · exact Or.inr (by rw [h]; exact List.mem_cons_self b rest)
            · exact Or.inr (List.mem_cons_of_mem b h)
          · intro c hc hcw
            rcases List.mem_cons.mp hc with rfl | hc
            · exact h3
            · exact h4 c hc hcw
        · -- sel's rounded ratio is not worse than b's: keep sel
          have hble : goRatioVal sel.connections sel.weight
              ≤ goRatioVal b.connections b.weight := by
            rw [mkRatio_pos _ _ hbw, mkRatio_pos _ _ hsel] at hlt
            exact le_of_not_lt
              (fun hc => hlt ((ratioLt_fin_iff _ _ _ _).mpr hc))
          have hstep : wlcGo sel (mkRatio sel.connections sel.weight)
              (b :: rest)
              = wlcGo sel (mkRatio sel.connections sel.weight) rest := by
            simp [wlcGo, hb0, hlt]
          obtain ⟨h1, h2, h3, h4⟩ := ih sel hsel hnnr
          rw [hstep]
          refine ⟨h1, ?_, h3, ?_⟩
          · rcases h2 with h | h
            · exact Or.inl h
            · exact Or.inr (List.mem_cons_of_mem b h)
          · intro c hc hcw
            rcases List.mem_cons.mp hc with rfl | hc
            · exact le_trans h3 hble
            · exact h4 c hc hcw

/-- C8 amended: when the FIRST backend of the (non-empty,
non-negative-weight) eligible set has positive weight,
`weightedLeastConnections` returns a positive-weight backend from the set
whose float64 connections-to-weight ratio is minimal under Go's float64
comparison — no positive-weight backend's rounded ratio compares strictly
smaller — and weight-0 backends are skipped and never selected.  The
original claim's stronger form — that a weight-0 backend is never selected
whenever some positive-weight backend exists — fails when the weight-0
backend comes first (see the counterexample). -/
theorem claim8_weighted_least_connections (b0 : Backend)
    (rest : List Backend) (hw0 : 0 < b0.weight)
    (hnn : ∀ b ∈ rest, 0 ≤ b.weight) :
    weightedLeastConnections (b0 :: rest)
      = some (wlcGo b0 (mkRatio b0.connections b0.weight) rest) ∧
    0 < (wlcGo b0 (mkRatio b0.connections b0.weight) rest).weight ∧
    (wlcGo b0 (mkRatio b0.connections b0.weight) rest = b0 ∨
      wlcGo b0 (mkRatio b0.connections b0.weight) rest ∈ rest) ∧
    ∀ b ∈ b0 :: rest, 0 < b.weight →
      ratioLt (mkRatio b.connections b.weight)
        (mkRatio
          (wlcGo b0 (mkRatio b0.connections b0.weight) rest).connections
          (wlcGo b0 (mkRatio b0.connections b0.weight) rest).weight)
        = false := by
  obtain ⟨h1, h2, h3, h4⟩ := wlcGo_min rest b0 hw0 hnn
  refine ⟨rfl, h1, h2, ?_⟩
  intro b hb hbw
  have hle : goRatioVal
      (wlcGo b0 (mkRatio b0.connections b0.weight) rest).connections
      (wlcGo b0 (mkRatio b0.connections b0.weight) rest).weight
      ≤ goRatioVal b.connections b.weight := by
    rcases List.mem_cons.mp hb with rfl | hb
    · exact h3
    · exact h4 b hb hbw
  rw [mkRatio_pos _ _ hbw, mkRatio_pos _ _ h1]
  exact ratioLt_fin_false_of_le _ _ _ _ hle

/-- C8 amended witness: first backend "a" (weight 2, 4 connections,
float64 ratio 2.0), then "b" (weight 1, 1 connection, ratio 1.0) and the
weight-0 "c"; the scan returns "b" and no positive-weight backend's
float64 ratio compares strictly below its ratio. -/
theorem claim8_weighted_least_connections_witness :
    ((0 : Int) < (⟨"a", 2, true, 0, 4, 0, 0, 0, none⟩ : Backend).weight ∧
     ∀ b ∈ ([⟨"b", 1, true, 0, 1, 0, 0, 0, none⟩,
        ⟨"c", 0, true, 0, 0, 0, 0, 0, none⟩] : List Backend),
        (0 : Int) ≤ b.weight) ∧
    (weightedLeastConnections [⟨"a", 2, true, 0, 4, 0, 0, 0, none⟩,
        ⟨"b", 1, true, 0, 1, 0, 0, 0, none⟩,
        ⟨"c", 0, true, 0, 0, 0, 0, 0, none⟩]
      = some (wlcGo ⟨"a", 2, true, 0, 4, 0, 0, 0, none⟩
          (mkRatio (⟨"a", 2, true, 0, 4, 0, 0, 0, none⟩ : Backend).connections
            (⟨"a", 2, true, 0, 4, 0, 0, 0, none⟩ : Backend).weight)
          [⟨"b", 1, true, 0, 1, 0, 0, 0, none⟩,
           ⟨"c", 0, true, 0, 0, 0, 0, 0, none⟩]) ∧
     0 < (wlcGo ⟨"a", 2, true, 0, 4, 0, 0, 0, none⟩
          (mkRatio (⟨"a", 2, true, 0, 4, 0, 0, 0, none⟩ : Backend).connections
            (⟨"a", 2, true, 0, 4, 0, 0, 0, none⟩ : Backend).weight)
          [⟨"b", 1, true, 0, 1, 0, 0, 0, none⟩,
           ⟨"c", 0, true, 0, 0, 0, 0, 0, none⟩]).weight ∧
     (wlcGo ⟨"a", 2, true, 0, 4, 0, 0, 0, none⟩
          (mkRatio (⟨"a", 2, true, 0, 4, 0, 0, 0, none⟩ : Backend).connections
            (⟨"a", 2, true, 0, 4, 0, 0, 0, none⟩ : Backend).weight)
          [⟨"b", 1, true, 0, 1, 0, 0, 0, none⟩,
           ⟨"c", 0, true, 0, 0, 0, 0, 0, none⟩]
        = ⟨"a", 2, true, 0, 4, 0, 0, 0, none⟩ ∨
      wlcGo ⟨"a", 2, true, 0, 4, 0, 0, 0, none⟩
          (mkRatio (⟨"a", 2, true, 0, 4, 0, 0, 0, none⟩ : Backend).connections
            (⟨"a", 2, true, 0, 4, 0, 0, 0, none⟩ : Backend).weight)
          [⟨"b", 1, true, 0, 1, 0, 0, 0, none⟩,
           ⟨"c", 0, true, 0, 0, 0, 0, 0, none⟩]
        ∈ ([⟨"b", 1, true, 0, 1, 0, 0, 0, none⟩,
            ⟨"c", 0, true, 0, 0, 0, 0, 0, none⟩] : List Backend)) ∧
     ∀ b ∈ ([⟨"a", 2, true, 0, 4, 0, 0, 0, none⟩,
         ⟨"b", 1, true, 0, 1, 0, 0, 0, none⟩,
         ⟨"c", 0, true, 0, 0, 0, 0, 0, none⟩] : List Backend),
       0 < b.weight →
       ratioLt (mkRatio b.connections b.weight)
         (mkRatio (wlcGo ⟨"a", 2, true, 0, 4, 0, 0, 0, none⟩
            (mkRatio
              (⟨"a", 2, true, 0, 4, 0, 0, 0, none⟩ : Backend).connections
              (⟨"a", 2, true, 0, 4, 0, 0, 0, none⟩ : Backend).weight)
            [⟨"b", 1, true, 0, 1, 0, 0, 0, none⟩,
             ⟨"c", 0, true, 0, 0, 0, 0, 0, none⟩]).connections
           (wlcGo ⟨"a", 2, true, 0, 4, 0, 0, 0, none⟩
            (mkRatio
              (⟨"a", 2, true, 0, 4, 0, 0, 0, none⟩ : Backend).connections
              (⟨"a", 2, true, 0, 4, 0, 0, 0, none⟩ : Backend).weight)
            [⟨"b", 1, true, 0, 1, 0, 0, 0, none⟩,
             ⟨"c", 0, true, 0, 0, 0, 0, 0, none⟩]).weight)
         = false) :=
  ⟨⟨by decide, by decide⟩,
   claim8_weighted_least_connections ⟨"a", 2, true, 0, 4, 0, 0, 0, none⟩
     [⟨"b", 1, true, 0, 1, 0, 0, 0, none⟩,
      ⟨"c", 0, true, 0, 0, 0, 0, 0, none⟩] (by decide) (by decide)⟩


/-! ## Consistent-hash ring lemmas (C9) -/

theorem foldl_pair {α β γ : Type} (f : α → γ → α) (g : β → γ → β)
    (hs : List γ) :
    ∀ (a : α) (b : β),
      hs.foldl (fun p h => (f p.1 h, g p.2 h)) (a, b) =
        (hs.foldl f a, hs.foldl g b) := by
  induction hs with
  | nil => intro a b; rfl
  | cons h t ih => intro a b; exact ih (f a h) (g b h)

theorem foldl_append_singleton {α : Type} (hs : List α) :
    ∀ l : List α, hs.foldl (fun acc h => acc ++ [h]) l = l ++ hs := by
  induction hs with
  | nil => intro l; simp
  | cons h t ih => intro l; rw [List.foldl_cons, ih]; simp

theorem count_foldl_erase (hs : List Nat) :
    ∀ (l : List Nat) (x : Nat),
      (hs.foldl List.erase l).count x = l.count x - hs.count x := by
  induction hs with
  | nil => intro l x; simp
  | cons h t ih =>
      intro l x
      rw [List.foldl_cons, ih, List.count_erase, List.count_cons]
      by_cases hx : h = x
      · simp only [hx]
        simp
        omega
      · simp [hx]

theorem foldl_erase_append_perm (hs l : List Nat)
    (hsub : ∀ x, hs.count x ≤ l.count x) :
    List.Perm ((hs.foldl List.erase l) ++ hs) l := by
  rw [List.perm_iff_count]
  intro x
  rw [List.count_append, count_foldl_erase]
  have := hsub x
  omega

theorem mapLookup_cons_pos (a : Nat × String) (m : List (Nat × String))
    (k : Nat) (h : a.1 = k) : mapLookup (a :: m) k = some a.2 := by
  simp only [mapLookup]
  rw [List.find?_cons_of_pos _ (by simp [h])]
  rfl

theorem mapLookup_cons_neg (a : Nat × String) (m : List (Nat × String))
    (k : Nat) (h : ¬ a.1 = k) : mapLookup (a :: m) k = mapLookup m k := by
  simp only [mapLookup]
  rw [List.find?_cons_of_neg _ (by simp [h])]

theorem mapLookup_insert_ne (m : List (Nat × String)) (k : Nat) (v : String)
    (k' : Nat) (h : k' ≠ k) :
    mapLookup (mapInsert m k v) k' = mapLookup m k' := by
  exact mapLookup_cons_neg (k, v) m k' (by simp; omega)

theorem mapLookup_delete_ne (m : List (Nat × String)) (k k' : Nat)
    (h : k' ≠ k) :
    mapLookup (mapDelete m k) k' = mapLookup m k' := by
  induction m with
  | nil => rfl
  | cons a m ih =>
      by_cases ha : a.1 = k
      · rw [show mapDelete (a :: m) k = mapDelete m k from by
          simp [mapDelete, List.filter_cons, ha], ih,
          mapLookup_cons_neg a m k' (by omega)]
      · rw [show mapDelete (a :: m) k = a :: mapDelete m k from by
          simp [mapDelete, List.filter_cons, ha]]
        by_cases hm : a.1 = k'
        · rw [mapLookup_cons_pos a _ k' hm, mapLookup_cons_pos a m k' hm]
        · rw [mapLookup_cons_neg a _ k' hm, mapLookup_cons_neg a m k' hm, ih]

theorem mapLookup_foldl_delete (hs : List Nat) :
    ∀ (m : List (Nat × String)) (k : Nat), k ∉ hs →
      mapLookup (hs.foldl mapDelete m) k = mapLookup m k := by
  induction hs with
  | nil => intro m k _; rfl
  | cons h t ih =>
      intro m k hk
      rw [List.foldl_cons, ih _ k (fun hm => hk (List.mem_cons_of_mem h hm)),
        mapLookup_delete_ne _ _ _
          (fun he => hk (by rw [he]; exact List.mem_cons_self h t))]

theorem mapLookup_foldl_insert (hs : List Nat) (v : String) :
    ∀ (m : List (Nat × String)) (k : Nat), k ∉ hs →
      mapLookup (hs.foldl (fun m h => mapInsert m h v) m) k = mapLookup m k := by
  induction hs with
  | nil => intro m k _; rfl
  | cons h t ih =>
      intro m k hk
      rw [List.foldl_cons, ih _ k (fun hm => hk (List.mem_cons_of_mem h hm)),
        mapLookup_insert_ne _ _ _ _
          (fun he => hk (by rw [he]; exact List.mem_cons_self h t))]

theorem chRemoveBackend_eq (ch : ConsistentHash) (id : String) :
    chRemoveBackend ch id =
      { ch with
        hashRing := (vnodeHashes ch.virtualNodes id).foldl mapDelete ch.hashRing,
        sortedHashes :=
          (vnodeHashes ch.virtualNodes id).foldl List.erase ch.sortedHashes } := by
  unfold chRemoveBackend
  rw [foldl_pair mapDelete List.erase]

theorem chAddBackend_eq (ch : ConsistentHash) (id : String) :
    chAddBackend ch id =
      { ch with
        hashRing := (vnodeHashes ch.virtualNodes id).foldl
          (fun m h => mapInsert m h id) ch.hashRing,
        sortedHashes := (ch.sortedHashes ++ vnodeHashes ch.virtualNodes id)
          |>.insertionSort (· ≤ ·) } := by
  unfold chAddBackend
  rw [foldl_pair (fun m h => mapInsert m h id) (fun l h => l ++ [h]),
    foldl_append_singleton]

/-- C9: for a ring whose sorted hash sequence is sorted and contains the
virtual-node hashes of backend `id` (with multiplicity — the backend is
present with the same virtual-node count), `RemoveBackend` followed by
`AddBackend` of the same backend restores the sorted hash sequence exactly
(hence it stays sorted, with its entry count — `virtualNodes` entries per
live backend — unchanged), and `GetBackend` is unchanged on every key that
does not resolve to one of `id`'s virtual-node hashes. -/
theorem claim9_ring_remove_add_restores (ch : ConsistentHash) (id : String)
    (key : List Nat)
    (hsorted : ch.sortedHashes.Sorted (· ≤ ·))
    (hsub : ∀ x ∈ vnodeHashes ch.virtualNodes id,
      (vnodeHashes ch.virtualNodes id).count x ≤ ch.sortedHashes.count x)
    (hkey : slotOutside ch id key = true) :
    (chAddBackend (chRemoveBackend ch id) id).sortedHashes
      = ch.sortedHashes ∧
    (chAddBackend (chRemoveBackend ch id) id).sortedHashes.Sorted (· ≤ ·) ∧
    (chAddBackend (chRemoveBackend ch id) id).sortedHashes.length
      = ch.sortedHashes.length ∧
    chGetBackend (chAddBackend (chRemoveBackend ch id) id) key
      = chGetBackend ch key := by
  have hsub' : ∀ x, (vnodeHashes ch.virtualNodes id).count x
      ≤ ch.sortedHashes.count x := by
    intro x
    by_cases hx : x ∈ vnodeHashes ch.virtualNodes id
    · exact hsub x hx
    · rw [List.count_eq_zero.mpr hx]
      omega
  have hvn : (chRemoveBackend ch id).virtualNodes = ch.virtualNodes := by
    rw [chRemoveBackend_eq]
  have hlists : (chAddBackend (chRemoveBackend ch id) id).sortedHashes
      = ch.sortedHashes := by
    rw [chAddBackend_eq, chRemoveBackend_eq]
    show (((vnodeHashes ch.virtualNodes id).foldl List.erase ch.sortedHashes)
        ++ vnodeHashes ch.virtualNodes id).insertionSort (· ≤ ·)
      = ch.sortedHashes
    exact List.eq_of_perm_of_sorted
      ((List.perm_insertionSort _ _).trans
        (foldl_erase_append_perm _ _ hsub'))
      (List.sorted_insertionSort _ _) hsorted
  refine ⟨hlists, by rw [hlists]; exact hsorted, by rw [hlists], ?_⟩
  have hslot : ringSlot (chAddBackend (chRemoveBackend ch id) id) key
      = ringSlot ch key := by
    simp only [ringSlot, hlists]
  rw [chGetBackend, chGetBackend, hslot]
  unfold slotOutside at hkey
  cases hq : ringSlot ch key with
  | none => rfl
  | some h0 =>
      rw [hq] at hkey
      have hnot : h0 ∉ vnodeHashes ch.virtualNodes id := by
        simp at hkey
        exact hkey
      rw [chAddBackend_eq, chRemoveBackend_eq]
      show mapLookup ((vnodeHashes ch.virtualNodes id).foldl
          (fun m h => mapInsert m h id)
          ((vnodeHashes ch.virtualNodes id).foldl mapDelete ch.hashRing)) h0
        = mapLookup ch.hashRing h0
      rw [mapLookup_foldl_insert _ _ _ _ hnot,
        mapLookup_foldl_delete _ _ _ hnot]

/-- C9 witness: a two-backend ring ("a" and "b", 2 virtual nodes each);
backend "a" is removed and re-added, and the key is the bytes of "b:0",
which resolves to one of "b"'s virtual nodes. -/
theorem claim9_ring_remove_add_restores_witness :
    ((chAddBackend (chAddBackend (NewConsistentHash 2) "b")
        "a").sortedHashes.Sorted (· ≤ ·) ∧
     (∀ x ∈ vnodeHashes (chAddBackend (chAddBackend (NewConsistentHash 2)
          "b") "a").virtualNodes "a",
        (vnodeHashes (chAddBackend (chAddBackend (NewConsistentHash 2) "b")
            "a").virtualNodes "a").count x
          ≤ (chAddBackend (chAddBackend (NewConsistentHash 2) "b")
            "a").sortedHashes.count x) ∧
     slotOutside (chAddBackend (chAddBackend (NewConsistentHash 2) "b") "a")
        "a" [98, 58, 48] = true) ∧
    ((chAddBackend (chRemoveBackend
          (chAddBackend (chAddBackend (NewConsistentHash 2) "b") "a") "a")
        "a").sortedHashes
      = (chAddBackend (chAddBackend (NewConsistentHash 2) "b")
          "a").sortedHashes ∧
     (chAddBackend (chRemoveBackend
          (chAddBackend (chAddBackend (NewConsistentHash 2) "b") "a") "a")
        "a").sortedHashes.Sorted (· ≤ ·) ∧
     (chAddBackend (chRemoveBackend
          (chAddBackend (chAddBackend (NewConsistentHash 2) "b") "a") "a")
        "a").sortedHashes.length
      = (chAddBackend (chAddBackend (NewConsistentHash 2) "b")
          "a").sortedHashes.length ∧
     chGetBackend (chAddBackend (chRemoveBackend
          (chAddBackend (chAddBackend (NewConsistentHash 2) "b") "a") "a")
        "a") [98, 58, 48]
      = chGetBackend (chAddBackend (chAddBackend (NewConsistentHash 2) "b")
          "a") [98, 58, 48]) :=
  ⟨⟨by decide, by decide, by decide⟩,
   claim9_ring_remove_add_restores
     (chAddBackend (chAddBackend (NewConsistentHash 2) "b") "a") "a"
     [98, 58, 48] (by decide) (by decide) (by decide)⟩

end LoadBalancer
